import Mathlib

/-!
# Verification of the AccurateRip FLAC checker core (`ar_flac.py`)

A shallow embedding of the disc-identity / response-parsing core of the
program, together with proofs of the specified properties.

Conventions of the embedding:
* Python integers are `Int` (arbitrary precision); values known to be
  non-negative counts are `Nat`.
* Python `//` and `%` (floor division / floor modulus, with positive
  divisors) are Lean's `Int` `/` and `%` (Euclidean division, which agrees
  with floor division for positive divisors).
* Python `x & 0xFFFFFFFF` is `x % 2 ^ 32`, and `x << k` is `x * 2 ^ k`.
* Byte buffers are `List Nat` (each element one byte); strings are
  `List Char`.
* Functions that can raise (`struct.error`, `AssertionError`) return
  `Except` / `Option`.
-/

/-- `CDDA_BITS_PER_FRAME = 588`: raw audio samples per CD frame. -/
def CDDA_BITS_PER_FRAME : Nat := 588

/-- `CDDA_FRAMES_PER_SEC = 75`: CD frames per second. -/
def CDDA_FRAMES_PER_SEC : Int := 75

/-- The `ARDiscInfo` named tuple: the three 32-bit disc identifiers plus the
track count.  Fields are `Int` exactly as Python ints (`num_tracks` is
computed as `len(track_offsets) - 1` and is never masked). -/
structure ARDiscInfo where
  disc_id_1 : Int
  disc_id_2 : Int
  cddb_disc_id : Int
  num_tracks : Int
deriving DecidableEq, Repr

/-- The `ARTrackInfo` named tuple: per-track confidence (signed byte) and
CRC (unsigned 32-bit). -/
structure ARTrackInfo where
  confidence : Int
  crc : Nat
deriving DecidableEq, Repr

/-- `sum_digits(n)`: the `while n > 0: r += n % 10; n //= 10` loop.  Returns
the base-10 digit sum for positive `n` and `0` for `n ≤ 0`. -/
def sum_digits (n : Int) : Int :=
  if 0 < n then n % 10 + sum_digits (n / 10) else 0
termination_by n.toNat
decreasing_by omega

/-- Round the exact rational `a / b` to the nearest integer, ties to even
(the IEEE-754 rounding direction used by float true division). -/
def round_div_nearest_even (a b : Nat) : Nat :=
  let m := a / b
  let rem := a % b
  if b < 2 * rem then m + 1 else if 2 * rem < b then m else m + m % 2

/-- The per-track frame length `int(math.ceil(num_samples / 588))` of the
source.  Python's `num_samples / 588` is float true division: CPython
produces the correctly rounded IEEE-754 double of the exact rational
`num_samples / 588` (round to nearest, ties to even), and `math.ceil`
then takes that double's exact ceiling.  Modelled exactly: with
`L = Nat.log2 (num_samples * 2 ^ 20 / 588)` one has
`2 ^ (L - 20) ≤ num_samples / 588 < 2 ^ (L - 20 + 1)` (20 is slack
exceeding the 10-bit width of 588), so the double grid around the
quotient has spacing `2 ^ (L - 20 - 52) = 2 ^ (L - 72)` (52 fractional
significand bits); the quotient is rounded onto that grid ties-to-even
and the ceiling of the rounded value is returned.  Faithful to the
program on the whole u64 `sample_count` domain (far below double
overflow).  This is NOT the exact ceiling of `num_samples / 588` once
`num_samples ≥ 588 * 2 ^ 44 + 1`: there the rounding can cross an
integer first. -/
def frame_length (num_samples : Nat) : Nat :=
  if num_samples = 0 then 0
  else
    let L := Nat.log2 (num_samples * 2 ^ 20 / 588)
    if 72 ≤ L then
      round_div_nearest_even num_samples (588 * 2 ^ (L - 72)) * 2 ^ (L - 72)
    else
      (round_div_nearest_even (num_samples * 2 ^ (72 - L)) 588 + 2 ^ (72 - L) - 1)
        / 2 ^ (72 - L)

/-- The loop body of `yield_track_offsets`: yield the running offset before
each track, add that track's frame length, and yield the final total after
the last track. -/
def track_offsets_loop (offset : Nat) : List Nat → List Nat
  | [] => [offset]
  | s :: rest => offset :: track_offsets_loop (offset + frame_length s) rest

/-- `yield_track_offsets`, abstracted over the per-track total sample counts
that the source obtains from `metaflac --show-total-samples`. -/
def yield_track_offsets (sample_counts : List Nat) : List Nat :=
  track_offsets_loop 0 sample_counts

/-- The mutable state of the loop in `calc_ar_disc_info`: the three running
accumulators, the `first_offset` latch (Python `None` ≈ `none`), and the
loop variable `track_offset` as it stands after the loop (the last element
visited, `none` if the loop never ran). -/
structure CalcState where
  disc_id_1 : Int
  disc_id_2 : Int
  cddb_disc_id : Int
  first_offset : Option Int
  last_offset : Option Int
deriving Repr

/-- The `for track_num, track_offset in enumerate(track_offsets)` loop of
`calc_ar_disc_info`, with `track_num = i`. -/
def calc_loop (num_tracks : Int) : Int → CalcState → List Int → CalcState
  | _, st, [] => st
  | i, st, o :: rest =>
      calc_loop num_tracks (i + 1)
        { disc_id_1 := st.disc_id_1 + o
          disc_id_2 := st.disc_id_2 + (if o ≠ 0 then o else 1) * (i + 1)
          cddb_disc_id :=
            if i < num_tracks then
              st.cddb_disc_id + sum_digits (o / CDDA_FRAMES_PER_SEC + 2)
            else st.cddb_disc_id
          first_offset := if st.first_offset = none then some o else st.first_offset
          last_offset := some o } rest

/-- `calc_ar_disc_info(track_offsets)`: fold the offsets into the three disc
identifiers, then truncate each to 32 bits with `& 0xFFFFFFFF`. -/
def calc_ar_disc_info (track_offsets : List Int) : ARDiscInfo :=
  let num_tracks : Int := (track_offsets.length : Int) - 1
  let st := calc_loop num_tracks 0 ⟨0, 0, 0, none, none⟩ track_offsets
  let cddb : Int :=
    match st.first_offset, st.last_offset with
    | some fo, some lo =>
        ((st.cddb_disc_id % 255) * 2 ^ 24)
          + (((lo / CDDA_FRAMES_PER_SEC) - (fo / 75)) * 2 ^ 8) + num_tracks
    | _, _ => st.cddb_disc_id
  { disc_id_1 := st.disc_id_1 % 2 ^ 32
    disc_id_2 := st.disc_id_2 % 2 ^ 32
    cddb_disc_id := cddb % 2 ^ 32
    num_tracks := num_tracks }

/-- The composition `calc_ar_disc_info(list(yield_track_offsets(...)))` as
run by the program's main flow, abstracted over per-track sample counts. -/
def disc_info_of_samples (sample_counts : List Nat) : ARDiscInfo :=
  calc_ar_disc_info ((yield_track_offsets sample_counts).map (fun n => (n : Int)))

/-- Decode one little-endian signed byte (`struct` format `b`). -/
def read_i8 (b : Nat) : Int :=
  if b < 128 then (b : Int) else (b : Int) - 256

/-- Decode four bytes as a little-endian unsigned 32-bit value (`struct`
format `I`). -/
def le_u32 (b0 b1 b2 b3 : Nat) : Nat :=
  b0 + 256 * b1 + 65536 * b2 + 16777216 * b3

/-- `struct.unpack('<bIII', header_data)`: requires exactly 13 bytes
(raising `struct.error` otherwise, modelled as `none`) and decodes a signed
track count plus the three unsigned 32-bit identifiers. -/
def unpack_header (l : List Nat) : Option (Int × Nat × Nat × Nat) :=
  if l.length = 13 then
    some (read_i8 (l.getD 0 0),
      le_u32 (l.getD 1 0) (l.getD 2 0) (l.getD 3 0) (l.getD 4 0),
      le_u32 (l.getD 5 0) (l.getD 6 0) (l.getD 7 0) (l.getD 8 0),
      le_u32 (l.getD 9 0) (l.getD 10 0) (l.getD 11 0) (l.getD 12 0))
  else none

/-- The records produced by `struct.iter_unpack('<bII', ...)`: consecutive
9-byte chunks, each a signed confidence byte, an unsigned 32-bit CRC, and a
discarded third field (bound to `_` in the source). -/
def read_track_records : List Nat → List ARTrackInfo
  | c :: r0 :: r1 :: r2 :: r3 :: _ :: _ :: _ :: _ :: rest =>
      ⟨read_i8 c, le_u32 r0 r1 r2 r3⟩ :: read_track_records rest
  | _ => []

/-- `struct.iter_unpack('<bII', per_track_data)`: `struct.error` (modelled
as `none`) unless the buffer length is a multiple of the 9-byte record
size; otherwise all records. -/
def iter_unpack_tracks (l : List Nat) : Option (List ARTrackInfo) :=
  if l.length % 9 = 0 then some (read_track_records l) else none

/-- The ways `list(yield_data_from_bin(...))` can raise: `struct.error`
from the header unpack, `AssertionError` from the four header-identity
asserts, or `struct.error` from `iter_unpack` on the per-track data. -/
inductive ParseError where
  | headerStructError : ParseError
  | assertionFailed : ParseError
  | recordStructError : ParseError
deriving DecidableEq, Repr

/-- `yield_data_from_bin(ar_bin_data, ar_disc_info)`, run to exhaustion as
`list(...)` does in the source: split off the first 13 bytes as the header,
unpack it, assert it equals the locally computed `ARDiscInfo`, then decode
every remaining 9-byte record. -/
def yield_data_from_bin (ar_bin_data : List Nat) (ar_disc_info : ARDiscInfo) :
    Except ParseError (List ARTrackInfo) :=
  match unpack_header (ar_bin_data.take 13) with
  | none => .error .headerStructError
  | some (num_tracks, disc_id_1, disc_id_2, cddb_disc_id) =>
      if num_tracks = ar_disc_info.num_tracks
          ∧ (disc_id_1 : Int) = ar_disc_info.disc_id_1
          ∧ (disc_id_2 : Int) = ar_disc_info.disc_id_2
          ∧ (cddb_disc_id : Int) = ar_disc_info.cddb_disc_id then
        match iter_unpack_tracks (ar_bin_data.drop 13) with
        | none => .error .recordStructError
        | some recs => .ok recs
      else .error .assertionFailed

/-- The header of `ar_bin_data` unpacks successfully and every one of the
four asserts in `yield_data_from_bin` passes against `info`. -/
def header_matches (ar_bin_data : List Nat) (info : ARDiscInfo) : Prop :=
  ∃ nt d1 d2 cddb,
    unpack_header (ar_bin_data.take 13) = some (nt, d1, d2, cddb)
      ∧ nt = info.num_tracks ∧ (d1 : Int) = info.disc_id_1
      ∧ (d2 : Int) = info.disc_id_2 ∧ (cddb : Int) = info.cddb_disc_id

/-- The character for one digit value below 16, lowercase, as Python's
`d` / `x` format codes produce (`'0'` has code 48, `'a'` code 97). -/
def hexDigitChar (d : Nat) : Char :=
  if d < 10 then Char.ofNat (48 + d) else Char.ofNat (87 + d)

/-- The digits of `n` in base `b`, most significant first, with `0`
rendered as `"0"`: the unpadded part of Python's `d` / `x` formatting of a
non-negative integer. -/
def fmt_base (b n : Nat) : List Char :=
  if n = 0 then ['0'] else ((Nat.digits b n).map hexDigitChar).reverse

/-- Left-pad with a fill character to the requested width, as the `0>W`
format spec does. -/
def pad_left (width : Nat) (fill : Char) (s : List Char) : List Char :=
  List.replicate (width - s.length) fill ++ s

/-- Python `f'{i:0>Wx}'` / `f'{i:0>Wd}'` on an arbitrary int: render the
digits (with a leading `'-'` for negatives) and zero-pad the result to
`width` characters. -/
def fmt_int_pad (b width : Nat) (i : Int) : List Char :=
  pad_left width '0' (if i < 0 then '-' :: fmt_base b i.natAbs else fmt_base b i.toNat)

/-- `ACCURATERIP_DB_URL`. -/
def ACCURATERIP_DB_URL : List Char := "http://www.accuraterip.com/accuraterip".data

/-- The `dBAR-{num_tracks:0>3d}-{disc_id_1:0>8x}-{disc_id_2:0>8x}-{cddb_disc_id:0>8x}.bin`
file name component of `create_accuraterip_db_url`. -/
def dBAR_filename (info : ARDiscInfo) : List Char :=
  "dBAR".data ++ '-' :: (fmt_int_pad 10 3 info.num_tracks
    ++ '-' :: (fmt_int_pad 16 8 info.disc_id_1
    ++ '-' :: (fmt_int_pad 16 8 info.disc_id_2
    ++ '-' :: (fmt_int_pad 16 8 info.cddb_disc_id ++ ".bin".data))))

/-- `create_accuraterip_db_url(ar_disc_info)`: the base URL, the three
nibble path segments `disc_id_1 & 0xF`, `disc_id_1 >> 4 & 0xF`,
`disc_id_1 >> 8 & 0xF` (each a single lowercase hex digit), and the dBAR
file name, joined with `'/'`.  Python `>>` on ints is floor shift,
i.e. division by a power of two. -/
def create_accuraterip_db_url (ar_disc_info : ARDiscInfo) : List Char :=
  ACCURATERIP_DB_URL
    ++ '/' :: (fmt_base 16 ((ar_disc_info.disc_id_1 % 16).toNat)
    ++ '/' :: (fmt_base 16 ((ar_disc_info.disc_id_1 / 16 % 16).toNat)
    ++ '/' :: (fmt_base 16 ((ar_disc_info.disc_id_1 / 256 % 16).toNat)
    ++ '/' :: dBAR_filename ar_disc_info)))

/-- The numeric value of one lowercase hex (or decimal) digit character. -/
def hexCharVal (c : Char) : Nat :=
  if 97 ≤ c.toNat then c.toNat - 87 else c.toNat - 48

/-- Re-parse a digit string in base `b`, most significant digit first. -/
def parse_base (b : Nat) (s : List Char) : Nat :=
  s.foldl (fun a c => b * a + hexCharVal c) 0

/-- Split a character list on a separator character (like `str.split`). -/
def splitOnChar (sep : Char) : List Char → List (List Char)
  | [] => [[]]
  | c :: rest =>
      match splitOnChar sep rest with
      | [] => [[]]
      | s :: ss => if c = sep then [] :: s :: ss else (c :: s) :: ss

/-- The part of a character list after its last occurrence of `sep` (the
whole list if `sep` does not occur). -/
def afterLast (sep : Char) (l : List Char) : List Char :=
  (l.reverse.takeWhile (fun c => c ≠ sep)).reverse

/-- Re-parse the fields embedded in a query URL: take the file name after
the last `'/'`, split it on `'-'` into the `dBAR` tag, the decimal track
count, and the three hex identifiers (the last with the `.bin` extension
stripped), and parse each numeric field. -/
def parse_dBAR_url (url : List Char) : Option (Nat × Nat × Nat × Nat) :=
  match splitOnChar '-' (afterLast '/' url) with
  | [tag, nnn, h1, h2, h3] =>
      if tag = "dBAR".data then
        some (parse_base 10 nnn, parse_base 16 h1, parse_base 16 h2,
          parse_base 16 (h3.takeWhile (fun c => c ≠ '.')))
      else none
  | _ => none

/-- Modelled from the spec: the source's `yield_crcs_from_flac_files` is a
stub (its trimming logic is described only in comments and it yields `0`
for every track), so the edge trimming of §4.5 is modelled from the spec's
words.  If `isFirst`, discard the first 2939 sample frames; if `isLast`,
discard the last 2940; both trims are measured against the original
untrimmed frame sequence. -/
def trim_track (frames : List Nat) (isFirst isLast : Bool) : List Nat :=
  let afterLastTrim := if isLast then frames.take (frames.length - 2940) else frames
  if isFirst then afterLastTrim.drop 2939 else afterLastTrim

/-- Modelled from the spec: the AccurateRip v1 track checksum of §4.5,
absent from the source stub.  Each remaining frame (already packed to an
unsigned 32-bit value) is multiplied by its 1-based position in the
original untrimmed track, summed, and truncated to 32 bits. -/
def ar_v1_checksum (frames : List Nat) (isFirst isLast : Bool) : Nat :=
  let kept := trim_track frames isFirst isLast
  let start := if isFirst then 2940 else 1
  ((kept.enum.map (fun p => (start + p.1) * p.2)).sum) % 2 ^ 32

/-- The source's actual `yield_crcs_from_flac_files` body: one `0` CRC per
track, everything else being dead code and comments. -/
def yield_crcs_stub (num_files : Nat) : List Nat :=
  List.replicate num_files 0

/-! ## Helper lemmas -/

theorem sum_digits_of_pos {n : Int} (h : 0 < n) :
    sum_digits n = n % 10 + sum_digits (n / 10) := by
  rw [sum_digits]; simp [h]

theorem sum_digits_of_nonpos {n : Int} (h : ¬ 0 < n) : sum_digits n = 0 := by
  rw [sum_digits]; simp [h]

theorem log2_eq_of_bounds {x k : Nat} (h1 : 2 ^ k ≤ x) (h2 : x < 2 ^ (k + 1)) :
    Nat.log2 x = k := by
  have hone : (1:Nat) ≤ 2 ^ k := Nat.one_le_two_pow
  have hx : x ≠ 0 := by omega
  have l1 := Nat.log2_self_le hx
  have l2 := Nat.lt_log2_self (n := x)
  rcases Nat.lt_trichotomy (Nat.log2 x) k with hlt | heq | hgt
  · have : (2:Nat) ^ (Nat.log2 x + 1) ≤ 2 ^ k :=
      Nat.pow_le_pow_right (by norm_num) (by omega)
    omega
  · exact heq
  · have : (2:Nat) ^ (k + 1) ≤ 2 ^ Nat.log2 x :=
      Nat.pow_le_pow_right (by norm_num) (by omega)
    omega

theorem rdne_ge (a b : Nat) : a / b ≤ round_div_nearest_even a b := by
  simp only [round_div_nearest_even]
  split
  · omega
  · split <;> omega

theorem rdne_le (a b : Nat) : round_div_nearest_even a b ≤ a / b + 1 := by
  simp only [round_div_nearest_even]
  split
  · omega
  · split <;> omega

theorem rdne_up {a b : Nat} (h : b < 2 * (a % b)) :
    round_div_nearest_even a b = a / b + 1 := by
  simp only [round_div_nearest_even]
  rw [if_pos h]

theorem rdne_of_mod_eq_zero {a b : Nat} (hb : 0 < b) (h : a % b = 0) :
    round_div_nearest_even a b = a / b := by
  simp only [round_div_nearest_even]
  rw [h]
  rw [if_neg (by omega), if_pos (by omega)]

/-- Below `588 * 2 ^ 44` the correctly rounded double of `n / 588` never
crosses an integer (the quotient's distance to the neighbouring integers,
at least `1 / 588`, exceeds half an ulp), so the program's frame length is
the exact ceiling of `n / 588`.  The bound is sharp: see the claim C5
counterexample. -/
theorem frame_length_eq_ceil {n : Nat} (hn : n < 588 * 2 ^ 44) :
    frame_length n = (n + 587) / 588 := by
  rcases Nat.eq_zero_or_pos n with rfl | hpos
  · simp [frame_length]
  · simp only [frame_length, if_neg (by omega : ¬ n = 0)]
    set L := Nat.log2 (n * 2 ^ 20 / 588) with hLdef
    have hx : n * 2 ^ 20 / 588 ≠ 0 := by
      have : 588 ≤ n * 2 ^ 20 := by nlinarith [hpos]
      have := (Nat.le_div_iff_mul_le (by norm_num : (0:Nat) < 588)).mpr
        (by omega : 1 * 588 ≤ n * 2 ^ 20)
      omega
    have hlow : 2 ^ L ≤ n * 2 ^ 20 / 588 := Nat.log2_self_le hx
    have hhigh : n * 2 ^ 20 / 588 < 2 ^ (L + 1) := Nat.lt_log2_self
    have hlow' : 588 * 2 ^ L ≤ n * 2 ^ 20 := by
      calc 588 * 2 ^ L ≤ 588 * (n * 2 ^ 20 / 588) := Nat.mul_le_mul_left _ hlow
        _ ≤ n * 2 ^ 20 := Nat.mul_div_le _ _
    have hhigh' : n * 2 ^ 20 < 2 ^ (L + 1) * 588 :=
      (Nat.div_lt_iff_lt_mul (by norm_num)).mp hhigh
    have hL63 : L ≤ 63 := by
      by_contra hgt
      have h64 : (2:Nat) ^ 64 ≤ 2 ^ L := Nat.pow_le_pow_right (by norm_num) (by omega)
      have hchain : 588 * (2 ^ 44 * 2 ^ 20) ≤ n * 2 ^ 20 := by
        calc 588 * (2 ^ 44 * 2 ^ 20) = 588 * 2 ^ 64 := by norm_num
          _ ≤ 588 * 2 ^ L := Nat.mul_le_mul_left _ h64
          _ ≤ n * 2 ^ 20 := hlow'
      have hpow : (0:Nat) < 2 ^ 20 := by positivity
      have : 588 * 2 ^ 44 ≤ n := by
        have h' : (588 * 2 ^ 44) * 2 ^ 20 ≤ n * 2 ^ 20 := by
          ring_nf; ring_nf at hchain; omega
        exact Nat.le_of_mul_le_mul_right h' hpow
      omega
    rw [if_neg (by omega : ¬ 72 ≤ L)]
    set t := 72 - L with htdef
    have ht9 : 9 ≤ t := by omega
    have hP : (512:Nat) ≤ 2 ^ t :=
      calc (512:Nat) = 2 ^ 9 := by norm_num
        _ ≤ 2 ^ t := Nat.pow_le_pow_right (by norm_num) ht9
    have hP0 : (0:Nat) < 2 ^ t := by positivity
    set q := n / 588 with hqdef
    set k := n % 588 with hkdef
    have hn588 : n = 588 * q + k := by omega
    have hk587 : k ≤ 587 := by omega
    set A := q * 2 ^ t with hAdef
    have hN : n * 2 ^ t = 588 * A + k * 2 ^ t := by rw [hAdef, hn588]; ring
    have hm : n * 2 ^ t / 588 = A + k * 2 ^ t / 588 := by
      rw [hN, Nat.mul_add_div (by norm_num)]
    have hrem : n * 2 ^ t % 588 = k * 2 ^ t % 588 := by
      rw [hN, Nat.mul_add_mod]
    rcases Nat.eq_zero_or_pos k with hk0 | hkpos
    · have hmod : n * 2 ^ t % 588 = 0 := by rw [hrem, hk0]; simp
      rw [rdne_of_mod_eq_zero (by norm_num) hmod, hm, hk0]
      simp only [Nat.zero_mul, Nat.zero_div, Nat.add_zero]
      have hres : (A + 2 ^ t - 1) / 2 ^ t = q := by
        apply Nat.div_eq_of_lt_le
        · rw [hAdef]; omega
        · rw [hAdef]
          have : (q + 1) * 2 ^ t = q * 2 ^ t + 2 ^ t := by ring
          omega
      rw [hres]
      omega
    · have hC : (n + 587) / 588 = q + 1 := by omega
      set mr := round_div_nearest_even (n * 2 ^ t) 588 with hmrdef
      have hmr_hi : mr ≤ A + 2 ^ t := by
        have h1 := rdne_le (n * 2 ^ t) 588
        have hdivlt : k * 2 ^ t / 588 < 2 ^ t := by
          rw [Nat.div_lt_iff_lt_mul (by norm_num)]
          calc k * 2 ^ t ≤ 587 * 2 ^ t := Nat.mul_le_mul_right _ hk587
            _ < 2 ^ t * 588 := by ring_nf; omega
        omega
      have hmr_lo : A + 1 ≤ mr := by
        rcases Nat.lt_or_ge (k * 2 ^ t) 588 with hsmall | hbig
        · have hd0 : k * 2 ^ t / 588 = 0 := Nat.div_eq_of_lt hsmall
          have hup : (588:Nat) < 2 * (n * 2 ^ t % 588) := by
            rw [hrem, Nat.mod_eq_of_lt hsmall]
            have : 2 ^ t ≤ k * 2 ^ t := Nat.le_mul_of_pos_left _ hkpos
            omega
          rw [hmrdef, rdne_up hup, hm, hd0]
        · have : 1 ≤ k * 2 ^ t / 588 :=
            (Nat.le_div_iff_mul_le (by norm_num)).mpr (by omega)
          have := rdne_ge (n * 2 ^ t) 588
          omega
      have hres : (mr + 2 ^ t - 1) / 2 ^ t = q + 1 := by
        apply Nat.div_eq_of_lt_le
        · have : (q + 1) * 2 ^ t = A + 2 ^ t := by rw [hAdef]; ring
          omega
        · have : (q + 1 + 1) * 2 ^ t = A + 2 ^ t + 2 ^ t := by rw [hAdef]; ring
          omega
      rw [hres, hC]

/-- The program's frame length at the first float-inexact sample count:
the exact quotient `2 ^ 44 + 1 / 588` is within half an ulp (`2 ^ (-9)`)
of the double `2 ^ 44`, so true division rounds down to exactly `2 ^ 44`
and the ceiling never sees the fraction. -/
theorem frame_length_at_float_boundary :
    frame_length (588 * 2 ^ 44 + 1) = 2 ^ 44 := by
  have hL : Nat.log2 ((588 * 2 ^ 44 + 1) * 2 ^ 20 / 588) = 64 := by
    apply log2_eq_of_bounds <;> norm_num
  simp only [frame_length, if_neg (by norm_num : ¬ 588 * 2 ^ 44 + 1 = 0), hL,
    if_neg (by norm_num : ¬ (72:Nat) ≤ 64)]
  norm_num [round_div_nearest_even]

theorem sum_digits_natCast (m : Nat) :
    sum_digits (m : Int) = ((Nat.digits 10 m).sum : Int) := by
  induction m using Nat.strong_induction_on with
  | _ m ih =>
    rcases Nat.eq_zero_or_pos m with hm | hm
    · subst hm
      rw [sum_digits_of_nonpos (by norm_num)]
      simp
    · rw [sum_digits_of_pos (by exact_mod_cast hm)]
      have hdiv : ((m : Int)) / 10 = ((m / 10 : Nat) : Int) := by omega
      have hmod : ((m : Int)) % 10 = ((m % 10 : Nat) : Int) := by omega
      rw [hdiv, hmod, ih (m / 10) (Nat.div_lt_self hm (by norm_num)),
        Nat.digits_def' (b := 10) (by norm_num) hm]
      push_cast [List.sum_cons]
      ring

theorem track_offsets_loop_length (s : List Nat) :
    ∀ off, (track_offsets_loop off s).length = s.length + 1 := by
  induction s with
  | nil => intro off; rfl
  | cons a rest ih =>
      intro off
      simp [track_offsets_loop, ih]

theorem track_offsets_loop_getD_zero (s : List Nat) (off : Nat) :
    (track_offsets_loop off s).getD 0 0 = off := by
  cases s <;> rfl

theorem track_offsets_loop_getLast (s : List Nat) :
    ∀ off, (track_offsets_loop off s).getLast?
      = some (off + (s.map frame_length).sum) := by
  induction s with
  | nil => intro off; simp [track_offsets_loop]
  | cons a rest ih =>
      intro off
      cases rest with
      | nil =>
          simp [track_offsets_loop]
      | cons b rs =>
          have h := ih (off + frame_length a)
          simp only [track_offsets_loop] at h ⊢
          rw [List.getLast?_cons_cons, h]
          simp only [List.map_cons, List.sum_cons]
          ring_nf

theorem track_offsets_loop_chain (s : List Nat) :
    ∀ off, List.Chain' (· ≤ ·) (track_offsets_loop off s) := by
  induction s with
  | nil => intro off; simp [track_offsets_loop]
  | cons a rest ih =>
      intro off
      simp only [track_offsets_loop]
      rw [List.chain'_cons']
      refine ⟨?_, ih (off + frame_length a)⟩
      intro b hb
      cases rest <;>
        simp only [track_offsets_loop, List.head?_cons, Option.mem_def,
          Option.some.injEq] at hb <;>
        omega

theorem track_offsets_loop_step (s : List Nat) :
    ∀ off i, i < s.length →
      (track_offsets_loop off s).getD (i + 1) 0
        = (track_offsets_loop off s).getD i 0 + frame_length (s.getD i 0) := by
  induction s with
  | nil => intro off i h; simp at h
  | cons a rest ih =>
      intro off i h
      cases i with
      | zero =>
          simp only [track_offsets_loop, List.getD_cons_succ, List.getD_cons_zero]
          exact track_offsets_loop_getD_zero rest (off + frame_length a)
      | succ j =>
          simp only [track_offsets_loop, List.getD_cons_succ]
          exact ih (off + frame_length a) j (by simpa using h)

/-! ## Claims C2, C4, C5, C8, C10 -/

/-- **C2**: for the one-track input `[1000000]`, the frame length is 1701,
the offsets are `[0, 1701]`, and the disc identity is
`disc_id_1 = 1701`, `disc_id_2 = 3403`, `cddb_disc_id = 0x02001601`,
`num_tracks = 1`. -/
theorem c2_single_track_example :
    frame_length 1000000 = 1701
    ∧ yield_track_offsets [1000000] = [0, 1701]
    ∧ disc_info_of_samples [1000000] = ⟨1701, 3403, 0x02001601, 1⟩ := by
  have hfl : frame_length 1000000 = 1701 := by
    rw [frame_length_eq_ceil (by norm_num)]
  have hoff : yield_track_offsets [1000000] = [0, 1701] := by
    simp [yield_track_offsets, track_offsets_loop, hfl]
  refine ⟨hfl, hoff, ?_⟩
  simp only [disc_info_of_samples, hoff, List.map_cons, List.map_nil]
  norm_num [calc_ar_disc_info, calc_loop, CDDA_FRAMES_PER_SEC,
    sum_digits_of_pos, sum_digits_of_nonpos]
  decide

/-- **C4** (counterexample): on the empty track list the layout stage does
not fail at all — it returns the offset sequence `[0]`. -/
theorem c4_cex_empty_list_yields_offsets : yield_track_offsets [] = [0] := by
  decide

/-- **C4** (amended): for the empty track list the layout stage produces
the single-element offset sequence `[0]` (the zero sentinel alone); the
stage is total and never fails, on empty or non-empty input. -/
theorem c4_empty_list_total :
    yield_track_offsets [] = [0]
    ∧ ∀ sample_counts : List Nat,
        (yield_track_offsets sample_counts).length = sample_counts.length + 1 := by
  exact ⟨by decide, fun sc => track_offsets_loop_length sc 0⟩

/-- **C5** (counterexample): at the sample count `588 * 2 ^ 44 + 1` the
program's offset step is `2 ^ 44`, while the exact ceiling
`⌈(588 * 2 ^ 44 + 1) / 588⌉` is `2 ^ 44 + 1`: float true division rounds
the quotient `2 ^ 44 + 1 / 588` down to exactly `2 ^ 44` (the fraction is
under half an ulp) before `math.ceil` sees it, so the claimed
step-equals-ceiling property fails there. -/
theorem c5_cex_float_ceiling :
    yield_track_offsets [588 * 2 ^ 44 + 1] = [0, 2 ^ 44]
    ∧ (588 * 2 ^ 44 + 1 + 587) / 588 = 2 ^ 44 + 1 := by
  constructor
  · have hfl := frame_length_at_float_boundary
    norm_num at hfl ⊢
    simp [yield_track_offsets, track_offsets_loop, hfl]
  · norm_num

/-- **C5** (amended): for every non-empty sample-count list the offsets
have length `N + 1`, start at 0, are non-decreasing, each step is the
program's frame length of the corresponding track, and the final sentinel
is the total of all frame lengths; the frame length equals the exact
ceiling `⌈s / 588⌉` for every sample count `s < 588 * 2 ^ 44` (the range
where the correctly rounded double quotient never crosses an integer),
the bound being sharp by the counterexample. -/
theorem c5_track_offsets_shape (sample_counts : List Nat)
    (hne : sample_counts ≠ []) :
    (yield_track_offsets sample_counts).length = sample_counts.length + 1
    ∧ (yield_track_offsets sample_counts).getD 0 0 = 0
    ∧ List.Chain' (· ≤ ·) (yield_track_offsets sample_counts)
    ∧ (∀ i, i < sample_counts.length →
        (yield_track_offsets sample_counts).getD (i + 1) 0
          = (yield_track_offsets sample_counts).getD i 0
            + frame_length (sample_counts.getD i 0))
    ∧ (yield_track_offsets sample_counts).getLast?
        = some ((sample_counts.map frame_length).sum)
    ∧ ∀ s : Nat, s < 588 * 2 ^ 44 →
        frame_length s = (s + 587) / 588
        ∧ s ≤ CDDA_BITS_PER_FRAME * frame_length s
        ∧ CDDA_BITS_PER_FRAME * frame_length s < s + CDDA_BITS_PER_FRAME := by
  refine ⟨track_offsets_loop_length sample_counts 0,
    track_offsets_loop_getD_zero sample_counts 0,
    track_offsets_loop_chain sample_counts 0,
    fun i hi => track_offsets_loop_step sample_counts 0 i hi,
    by simpa using track_offsets_loop_getLast sample_counts 0,
    fun s hs => ?_⟩
  have h := frame_length_eq_ceil hs
  refine ⟨h, ?_, ?_⟩ <;>
    · rw [h]
      unfold CDDA_BITS_PER_FRAME
      omega

/-- **C5** witness: the theorem applied at the concrete input
`[10, 1000000]`, including the bounded exact-ceiling conjunct at
`s = 1000000`. -/
theorem c5_witness :
    ([10, 1000000] : List Nat) ≠ []
    ∧ (yield_track_offsets [10, 1000000]).length = 3
    ∧ List.Chain' (· ≤ ·) (yield_track_offsets [10, 1000000])
    ∧ frame_length 1000000 = (1000000 + 587) / 588 := by
  have h := c5_track_offsets_shape [10, 1000000] (by decide)
  exact ⟨by decide, h.1, h.2.2.1, (h.2.2.2.2.2 1000000 (by norm_num)).1⟩

/-- **C8**: the disc-identity computation is deterministic — two runs over
equal sample-count lists produce equal `ARDiscInfo` values (the pipeline is
a pure function of its input). -/
theorem c8_disc_info_deterministic (s1 s2 : List Nat) (h : s1 = s2) :
    disc_info_of_samples s1 = disc_info_of_samples s2 := by
  rw [h]

/-- **C8** witness: the theorem applied at the concrete input `[1000000]`. -/
theorem c8_witness :
    ([1000000] : List Nat) = [1000000]
    ∧ disc_info_of_samples [1000000] = disc_info_of_samples [1000000] :=
  ⟨rfl, c8_disc_info_deterministic [1000000] [1000000] rfl⟩

/-- **C10**: `sum_digits` is total over all integers — it returns 0 for
every `n ≤ 0` (including the negative inputs the spec leaves undefined)
and the base-10 digit sum for every `n ≥ 0`. -/
theorem c10_sum_digits_total :
    (∀ n : Int, n ≤ 0 → sum_digits n = 0)
    ∧ ∀ n : Int, 0 ≤ n → sum_digits n = ((Nat.digits 10 n.toNat).sum : Int) := by
  constructor
  · intro n hn
    exact sum_digits_of_nonpos (by omega)
  · intro n hn
    have h := sum_digits_natCast n.toNat
    rwa [Int.toNat_of_nonneg hn] at h

/-- **C10** witness: the theorem applied at `-3` and at `123`. -/
theorem c10_witness :
    sum_digits (-3) = 0
    ∧ sum_digits 123 = ((Nat.digits 10 (123 : Int).toNat).sum : Int) :=
  ⟨c10_sum_digits_total.1 (-3) (by norm_num),
   c10_sum_digits_total.2 123 (by norm_num)⟩

/-! ## Claim C7 (checksum engine, modelled from the spec) -/

/-- **C7**: for a single-track disc of exactly 5000 frames with both
`isFirst` and `isLast` set, the edge trimming (first 2939 and last 2940
frames, both against the original sequence) leaves no frames and the
checksum is 0. -/
theorem c7_short_single_track (frames : List Nat) (hlen : frames.length = 5000) :
    trim_track frames true true = [] ∧ ar_v1_checksum frames true true = 0 := by
  have htrim : trim_track frames true true = [] := by
    simp only [trim_track, if_true]
    apply List.drop_eq_nil_of_le
    rw [List.length_take]
    omega
  refine ⟨htrim, ?_⟩
  unfold ar_v1_checksum
  rw [htrim]
  simp

/-- **C7** witness: the theorem applied to a concrete 5000-frame track. -/
theorem c7_witness :
    (List.replicate 5000 7).length = 5000
    ∧ trim_track (List.replicate 5000 7) true true = []
    ∧ ar_v1_checksum (List.replicate 5000 7) true true = 0 := by
  have h := c7_short_single_track (List.replicate 5000 7) (List.length_replicate 5000 7)
  exact ⟨List.length_replicate 5000 7, h.1, h.2⟩

/-! ## Parser helper lemmas -/

theorem read_track_records_length :
    ∀ (k : Nat) (l : List Nat), l.length = 9 * k →
      (read_track_records l).length = k := by
  intro k
  induction k with
  | zero =>
      intro l h
      have : l = [] := List.length_eq_zero.mp (by omega)
      subst this
      rfl
  | succ k ih =>
      intro l h
      rcases l with _ | ⟨c, _ | ⟨r0, _ | ⟨r1, _ | ⟨r2, _ | ⟨r3, _ | ⟨u0,
          _ | ⟨u1, _ | ⟨u2, _ | ⟨u3, rest⟩⟩⟩⟩⟩⟩⟩⟩⟩ <;>
        simp only [List.length_cons, List.length_nil] at h <;> try omega
      simp only [read_track_records, List.length_cons]
      rw [ih rest (by omega)]

theorem header_matches_length {data : List Nat} {info : ARDiscInfo}
    (h : header_matches data info) : 13 ≤ data.length := by
  obtain ⟨nt, d1, d2, cddb, hu, -⟩ := h
  unfold unpack_header at hu
  by_contra hlt
  rw [if_neg] at hu
  · exact Option.noConfusion hu
  · simp only [List.length_take]
    omega

theorem yield_ok_of_matches {data : List Nat} {info : ARDiscInfo}
    (h : header_matches data info) (h9 : (data.length - 13) % 9 = 0) :
    yield_data_from_bin data info = .ok (read_track_records (data.drop 13)) := by
  obtain ⟨nt, d1, d2, cddb, hu, h1, h2, h3, h4⟩ := h
  simp only [yield_data_from_bin, hu]
  rw [if_pos ⟨h1, h2, h3, h4⟩]
  simp only [iter_unpack_tracks]
  rw [if_pos (show (List.drop 13 data).length % 9 = 0 by
    simp only [List.length_drop]; omega)]

theorem yield_err_of_ragged {data : List Nat} {info : ARDiscInfo}
    (h : header_matches data info) (h9 : (data.length - 13) % 9 ≠ 0) :
    yield_data_from_bin data info = .error .recordStructError := by
  obtain ⟨nt, d1, d2, cddb, hu, h1, h2, h3, h4⟩ := h
  simp only [yield_data_from_bin, hu]
  rw [if_pos ⟨h1, h2, h3, h4⟩]
  simp only [iter_unpack_tracks]
  rw [if_neg (show ¬ (List.drop 13 data).length % 9 = 0 by
    simp only [List.length_drop]; omega)]

theorem yield_err_of_short {data : List Nat} {info : ARDiscInfo}
    (h : data.length < 13) :
    yield_data_from_bin data info = .error .headerStructError := by
  have hu : unpack_header (data.take 13) = none := by
    unfold unpack_header
    rw [if_neg]
    simp only [List.length_take]
    omega
  simp only [yield_data_from_bin, hu]

theorem yield_err_of_mismatch {data : List Nat} {info : ARDiscInfo}
    {nt : Int} {d1 d2 cddb : Nat}
    (hu : unpack_header (data.take 13) = some (nt, d1, d2, cddb))
    (hne : ¬(nt = info.num_tracks ∧ (d1 : Int) = info.disc_id_1
        ∧ (d2 : Int) = info.disc_id_2 ∧ (cddb : Int) = info.cddb_disc_id)) :
    yield_data_from_bin data info = .error .assertionFailed := by
  simp only [yield_data_from_bin, hu]
  rw [if_neg hne]

/-! ## Claims C1, C3, C9 (response parser) -/

/-- **C1** (counterexample): a buffer whose header (matching the local
identity) declares `track_count = 2` but is followed by only one 9-byte
record is accepted — the parser yields the single record instead of
failing, so a declared track count that overruns the remaining buffer is
not detected, and a well-formed two-entry buffer is likewise not decoded
into two candidates. -/
theorem c1_cex_track_count_overrun_accepted :
    yield_data_from_bin
      [2, 1, 0, 0, 0, 2, 0, 0, 0, 3, 0, 0, 0, 5, 7, 0, 0, 0, 0, 0, 0, 0]
      ⟨1, 2, 3, 2⟩ = .ok [⟨5, 7⟩] := rfl

/-- **C1** (amended): the parser decodes a single entry, not a sequence of
back-to-back entries.  A buffer shorter than the 13-byte header fails; a
buffer whose post-header remainder is not a multiple of the 9-byte record
size fails (so ending mid-header or mid-record is an error); and a buffer
whose header matches the local identity and whose remainder is a multiple
of 9 yields exactly `(length - 13) / 9` records, regardless of the
header's declared track count. -/
theorem c1_single_entry_parse (data : List Nat) (info : ARDiscInfo) :
    (data.length < 13 →
      yield_data_from_bin data info = .error .headerStructError)
    ∧ (header_matches data info → (data.length - 13) % 9 ≠ 0 →
        yield_data_from_bin data info = .error .recordStructError)
    ∧ (header_matches data info → (data.length - 13) % 9 = 0 →
        yield_data_from_bin data info = .ok (read_track_records (data.drop 13))
          ∧ (read_track_records (data.drop 13)).length = (data.length - 13) / 9) := by
  refine ⟨fun h => yield_err_of_short h,
    fun hm h9 => yield_err_of_ragged hm h9,
    fun hm h9 => ⟨yield_ok_of_matches hm h9, ?_⟩⟩
  have h13 := header_matches_length hm
  apply read_track_records_length
  simp only [List.length_drop]
  omega

/-- **C1** witness: the amended theorem applied at three concrete buffers —
one truncated mid-header, one ending mid-record, and one well-formed
single-entry buffer with two records. -/
theorem c1_witness :
    yield_data_from_bin [0, 0] ⟨0, 0, 0, 0⟩ = .error .headerStructError
    ∧ yield_data_from_bin
        [0, 0, 0, 0, 0, 0, 0, 0, 0, 0, 0, 0, 0, 9] ⟨0, 0, 0, 0⟩
        = .error .recordStructError
    ∧ yield_data_from_bin
        [0, 0, 0, 0, 0, 0, 0, 0, 0, 0, 0, 0, 0,
          1, 2, 0, 0, 0, 0, 0, 0, 0,
          3, 4, 0, 0, 0, 0, 0, 0, 0] ⟨0, 0, 0, 0⟩
        = .ok [⟨1, 2⟩, ⟨3, 4⟩] := by
  refine ⟨(c1_single_entry_parse [0, 0] ⟨0, 0, 0, 0⟩).1 (by decide), ?_, ?_⟩
  · exact (c1_single_entry_parse _ _).2.1
      ⟨0, 0, 0, 0, by decide, by decide, by decide, by decide, by decide⟩
      (by decide)
  · have h := (c1_single_entry_parse
      [0, 0, 0, 0, 0, 0, 0, 0, 0, 0, 0, 0, 0,
        1, 2, 0, 0, 0, 0, 0, 0, 0,
        3, 4, 0, 0, 0, 0, 0, 0, 0] ⟨0, 0, 0, 0⟩).2.2
      ⟨0, 0, 0, 0, by decide, by decide, by decide, by decide, by decide⟩
      (by decide)
    rw [h.1]
    rfl

/-- **C3** (counterexample): a 13-byte response whose header identifiers
differ from the locally computed `ARDiscInfo` is a parse failure (the
source's `assert` raises), not a warning — the parser does not succeed. -/
theorem c3_cex_mismatch_is_parse_failure :
    yield_data_from_bin
      [1, 1, 0, 0, 0, 2, 0, 0, 0, 3, 0, 0, 0]
      ⟨9, 9, 9, 1⟩ = .error .assertionFailed := rfl

/-- **C3** (amended): whenever the 13-byte header unpacks to identifiers
that do not all equal the local `ARDiscInfo`'s fields, `yield_data_from_bin`
fails with `AssertionError`; header mismatch is a parse failure, never a
mere warning. -/
theorem c3_mismatch_asserts (data : List Nat) (info : ARDiscInfo)
    (nt : Int) (d1 d2 cddb : Nat)
    (hu : unpack_header (data.take 13) = some (nt, d1, d2, cddb))
    (hne : ¬(nt = info.num_tracks ∧ (d1 : Int) = info.disc_id_1
        ∧ (d2 : Int) = info.disc_id_2 ∧ (cddb : Int) = info.cddb_disc_id)) :
    yield_data_from_bin data info = .error .assertionFailed :=
  yield_err_of_mismatch hu hne

/-- **C3** witness: the amended theorem applied at a concrete mismatching
buffer. -/
theorem c3_witness :
    yield_data_from_bin
      [1, 0, 0, 0, 0, 0, 0, 0, 0, 0, 0, 0, 0]
      ⟨0, 0, 0, 0⟩ = .error .assertionFailed :=
  c3_mismatch_asserts _ _ 1 0 0 0 (by decide) (by decide)

/-- **C9**: for every buffer of length `13 + 9 * k` whose header passes the
local-identity check, the parser yields exactly `k` records — the count is
fixed by the remaining buffer length alone, with the header's declared
track count playing no part. -/
theorem c9_record_count_from_length (data : List Nat) (info : ARDiscInfo)
    (k : Nat) (hlen : data.length = 13 + 9 * k)
    (hm : header_matches data info) :
    ∃ recs, yield_data_from_bin data info = .ok recs ∧ recs.length = k := by
  refine ⟨read_track_records (data.drop 13), yield_ok_of_matches hm ?_, ?_⟩
  · omega
  · apply read_track_records_length
    simp only [List.length_drop]
    omega

/-- **C9** witness: a 31-byte buffer (`13 + 9 * 2`) whose header declares
5 tracks (matching the local identity's 5) still yields exactly 2 records. -/
theorem c9_witness :
    ∃ recs, yield_data_from_bin
      [5, 0, 0, 0, 0, 0, 0, 0, 0, 0, 0, 0, 0,
        8, 1, 1, 0, 0, 0, 0, 0, 0,
        9, 2, 0, 0, 0, 0, 0, 0, 0] ⟨0, 0, 0, 5⟩
      = .ok recs ∧ recs.length = 2 := by
  exact c9_record_count_from_length _ _ 2 (by decide)
    ⟨5, 0, 0, 0, by decide, by decide, by decide, by decide, by decide⟩

/-! ## URL formatting helper lemmas (claim C6) -/

theorem hexCharVal_hexDigitChar {d : Nat} (h : d < 16) :
    hexCharVal (hexDigitChar d) = d := by
  interval_cases d <;> decide

theorem hexDigitChar_ne {d : Nat} (h : d < 16) :
    hexDigitChar d ≠ '-' ∧ hexDigitChar d ≠ '/' ∧ hexDigitChar d ≠ '.' := by
  interval_cases d <;> decide

theorem mem_fmt_base {b n : Nat} (hb1 : 1 < b) (hb : b ≤ 16) {c : Char}
    (h : c ∈ fmt_base b n) : ∃ d, d < 16 ∧ c = hexDigitChar d := by
  unfold fmt_base at h
  by_cases hn : n = 0
  · rw [if_pos hn] at h
    simp only [List.mem_singleton] at h
    exact ⟨0, by norm_num, by rw [h]; rfl⟩
  · rw [if_neg hn] at h
    rw [List.mem_reverse] at h
    obtain ⟨d, hd, rfl⟩ := List.mem_map.mp h
    exact ⟨d, lt_of_lt_of_le (Nat.digits_lt_base hb1 hd) hb, rfl⟩

theorem mem_fmt_int_pad {b w : Nat} {i : Int} (hb1 : 1 < b) (hb : b ≤ 16)
    (hi : 0 ≤ i) {c : Char} (h : c ∈ fmt_int_pad b w i) :
    ∃ d, d < 16 ∧ c = hexDigitChar d := by
  unfold fmt_int_pad pad_left at h
  rw [if_neg (by omega)] at h
  rcases List.mem_append.mp h with h | h
  · exact ⟨0, by norm_num, by rw [List.eq_of_mem_replicate h]; rfl⟩
  · exact mem_fmt_base hb1 hb h

theorem fmt_int_pad_safe {b w : Nat} {i : Int} (hb1 : 1 < b) (hb : b ≤ 16)
    (hi : 0 ≤ i) {c : Char} (h : c ∈ fmt_int_pad b w i) :
    c ≠ '-' ∧ c ≠ '/' ∧ c ≠ '.' := by
  obtain ⟨d, hd, rfl⟩ := mem_fmt_int_pad hb1 hb hi h
  exact hexDigitChar_ne hd

theorem takeWhile_false_head {p : Char → Bool} {l : List Char}
    (hl : ∀ c ∈ l, p c = true) {a : Char} (ha : p a = false) :
    ∀ r, (l ++ a :: r).takeWhile p = l := by
  induction l with
  | nil => intro r; simp [List.takeWhile_cons, ha]
  | cons x xs ih =>
      intro r
      have hx := hl x (List.mem_cons_self x xs)
      rw [List.cons_append, List.takeWhile_cons, hx]
      simp only [if_true]
      rw [ih (fun c hc => hl c (List.mem_cons_of_mem _ hc)) r]

theorem afterLast_append {sep : Char} {xs ys : List Char}
    (h : ∀ c ∈ ys, c ≠ sep) : afterLast sep (xs ++ sep :: ys) = ys := by
  unfold afterLast
  rw [List.reverse_append, List.reverse_cons, List.append_assoc,
    List.singleton_append]
  rw [takeWhile_false_head (p := fun c => decide (c ≠ sep))
    (fun c hc => decide_eq_true (h c (List.mem_reverse.mp hc)))
    (by simp) xs.reverse]
  exact List.reverse_reverse ys

theorem splitOnChar_ne_nil (sep : Char) (l : List Char) :
    splitOnChar sep l ≠ [] := by
  cases l with
  | nil => simp [splitOnChar]
  | cons c rest =>
      simp only [splitOnChar]
      split
      · simp
      · split <;> simp

theorem splitOnChar_cons_sep (sep : Char) (rest : List Char) :
    splitOnChar sep (sep :: rest) = [] :: splitOnChar sep rest := by
  cases h : splitOnChar sep rest with
  | nil => exact absurd h (splitOnChar_ne_nil sep rest)
  | cons s ss =>
      simp only [splitOnChar, h]
      rw [if_true]

theorem splitOnChar_cons_ne {sep c : Char} (hc : c ≠ sep) (rest : List Char) :
    ∃ s ss, splitOnChar sep rest = s :: ss
      ∧ splitOnChar sep (c :: rest) = (c :: s) :: ss := by
  cases h : splitOnChar sep rest with
  | nil => exact absurd h (splitOnChar_ne_nil sep rest)
  | cons s ss =>
      refine ⟨s, ss, rfl, ?_⟩
      simp only [splitOnChar, h]
      rw [if_neg hc]

theorem splitOnChar_append {sep : Char} {l : List Char}
    (hl : ∀ c ∈ l, c ≠ sep) (rest : List Char) :
    splitOnChar sep (l ++ sep :: rest) = l :: splitOnChar sep rest := by
  induction l with
  | nil => simpa using splitOnChar_cons_sep sep rest
  | cons x xs ih =>
      have hx : x ≠ sep := hl x (List.mem_cons_self x xs)
      have ih' := ih (fun c hc => hl c (List.mem_cons_of_mem _ hc))
      obtain ⟨s, ss, h1, h2⟩ := splitOnChar_cons_ne hx (xs ++ sep :: rest)
      rw [List.cons_append, h2]
      rw [ih'] at h1
      injection h1 with e1 e2
      rw [e1, e2]

theorem splitOnChar_of_forall_ne {sep : Char} {l : List Char}
    (hl : ∀ c ∈ l, c ≠ sep) : splitOnChar sep l = [l] := by
  induction l with
  | nil => rfl
  | cons x xs ih =>
      have hx : x ≠ sep := hl x (List.mem_cons_self x xs)
      have ih' := ih (fun c hc => hl c (List.mem_cons_of_mem _ hc))
      obtain ⟨s, ss, h1, h2⟩ := splitOnChar_cons_ne hx xs
      rw [h2]
      rw [ih'] at h1
      injection h1 with e1 e2
      rw [e1, e2]

theorem foldr_hex_digits (b : Nat) :
    ∀ l : List Nat, (∀ d ∈ l, d < 16) →
      List.foldr (fun c a => b * a + hexCharVal c) 0 (l.map hexDigitChar)
        = Nat.ofDigits b l := by
  intro l
  induction l with
  | nil => intro _; simp [Nat.ofDigits]
  | cons d L ih =>
      intro hmem
      simp only [List.map_cons, List.foldr_cons]
      rw [ih (fun x hx => hmem x (List.mem_cons_of_mem _ hx)),
        hexCharVal_hexDigitChar (hmem d (List.mem_cons_self d L)),
        Nat.ofDigits_cons]
      ring

theorem parse_base_fmt_base {b : Nat} (hb1 : 1 < b) (hb : b ≤ 16) (n : Nat) :
    parse_base b (fmt_base b n) = n := by
  unfold parse_base fmt_base
  by_cases hn : n = 0
  · subst hn
    rw [if_pos rfl]
    simp [show hexCharVal '0' = 0 from rfl]
  · rw [if_neg hn]
    rw [List.foldl_reverse]
    rw [foldr_hex_digits b (Nat.digits b n)
      (fun d hd => lt_of_lt_of_le (Nat.digits_lt_base hb1 hd) hb)]
    exact Nat.ofDigits_digits b n

theorem parse_base_replicate_zero (b : Nat) :
    ∀ k, List.foldl (fun a c => b * a + hexCharVal c) 0 (List.replicate k '0') = 0 := by
  intro k
  induction k with
  | zero => rfl
  | succ k ih =>
      rw [List.replicate_succ, List.foldl_cons]
      simpa [show hexCharVal '0' = 0 from rfl] using ih

theorem parse_base_pad_left (b w : Nat) (s : List Char) :
    parse_base b (pad_left w '0' s) = parse_base b s := by
  unfold parse_base pad_left
  rw [List.foldl_append, parse_base_replicate_zero b (w - s.length)]

theorem parse_base_fmt_int_pad {b w : Nat} {i : Int} (hb1 : 1 < b)
    (hb : b ≤ 16) (hi : 0 ≤ i) :
    parse_base b (fmt_int_pad b w i) = i.toNat := by
  unfold fmt_int_pad
  rw [if_neg (by omega), parse_base_pad_left]
  exact parse_base_fmt_base hb1 hb i.toNat

theorem dBAR_filename_no_slash {info : ARDiscInfo}
    (h1 : 0 ≤ info.num_tracks) (h2 : 0 ≤ info.disc_id_1)
    (h3 : 0 ≤ info.disc_id_2) (h4 : 0 ≤ info.cddb_disc_id) :
    ∀ c ∈ dBAR_filename info, c ≠ '/' := by
  intro c hc
  unfold dBAR_filename at hc
  simp only [List.mem_append, List.mem_cons] at hc
  rcases hc with hc | hc | hc | hc | hc | hc | hc | hc | hc | hc
  · rcases hc with rfl | rfl | rfl | rfl | hc
    · decide
    · decide
    · decide
    · decide
    · exact absurd hc (List.not_mem_nil c)
  · rw [hc]; decide
  · exact (fmt_int_pad_safe (by norm_num) (by norm_num) h1 hc).2.1
  · rw [hc]; decide
  · exact (fmt_int_pad_safe (by norm_num) (by norm_num) h2 hc).2.1
  · rw [hc]; decide
  · exact (fmt_int_pad_safe (by norm_num) (by norm_num) h3 hc).2.1
  · rw [hc]; decide
  · exact (fmt_int_pad_safe (by norm_num) (by norm_num) h4 hc).2.1
  · rcases hc with rfl | rfl | rfl | rfl | hc
    · decide
    · decide
    · decide
    · decide
    · exact absurd hc (List.not_mem_nil c)

/-- **C6**: for every `ARDiscInfo` whose identifiers fit in 32 bits (and
whose track count is non-negative), re-parsing the decimal and hex fields
embedded in the query URL built by `create_accuraterip_db_url` recovers
exactly the `num_tracks`, `disc_id_1`, `disc_id_2` and `cddb_disc_id` used
to build it. -/
theorem c6_url_round_trip (info : ARDiscInfo)
    (h1 : 0 ≤ info.disc_id_1) (h1b : info.disc_id_1 < 2 ^ 32)
    (h2 : 0 ≤ info.disc_id_2) (h2b : info.disc_id_2 < 2 ^ 32)
    (h3 : 0 ≤ info.cddb_disc_id) (h3b : info.cddb_disc_id < 2 ^ 32)
    (h4 : 0 ≤ info.num_tracks) :
    parse_dBAR_url (create_accuraterip_db_url info)
      = some (info.num_tracks.toNat, info.disc_id_1.toNat,
          info.disc_id_2.toNat, info.cddb_disc_id.toNat) := by
  have hafter : afterLast '/' (create_accuraterip_db_url info)
      = dBAR_filename info := by
    have hassoc : create_accuraterip_db_url info
        = (ACCURATERIP_DB_URL ++ '/' :: (fmt_base 16 (info.disc_id_1 % 16).toNat
            ++ '/' :: (fmt_base 16 (info.disc_id_1 / 16 % 16).toNat
            ++ '/' :: fmt_base 16 (info.disc_id_1 / 256 % 16).toNat)))
          ++ '/' :: dBAR_filename info := by
      unfold create_accuraterip_db_url
      simp [List.append_assoc]
    rw [hassoc]
    exact afterLast_append (dBAR_filename_no_slash h4 h1 h2 h3)
  have hA1 : ∀ c ∈ fmt_int_pad 10 3 info.num_tracks, c ≠ '-' :=
    fun c hc => (fmt_int_pad_safe (by norm_num) (by norm_num) h4 hc).1
  have hA2 : ∀ c ∈ fmt_int_pad 16 8 info.disc_id_1, c ≠ '-' :=
    fun c hc => (fmt_int_pad_safe (by norm_num) (by norm_num) h1 hc).1
  have hA3 : ∀ c ∈ fmt_int_pad 16 8 info.disc_id_2, c ≠ '-' :=
    fun c hc => (fmt_int_pad_safe (by norm_num) (by norm_num) h2 hc).1
  have hA4 : ∀ c ∈ fmt_int_pad 16 8 info.cddb_disc_id ++ ".bin".data, c ≠ '-' := by
    intro c hc
    rcases List.mem_append.mp hc with hc | hc
    · exact (fmt_int_pad_safe (by norm_num) (by norm_num) h3 hc).1
    · have hb : (".bin".data : List Char) = ['.', 'b', 'i', 'n'] := rfl
      rw [hb] at hc
      fin_cases hc <;> decide
  have htagne : ∀ c ∈ "dBAR".data, c ≠ '-' := by decide
  have hsplit : splitOnChar '-' (dBAR_filename info)
      = ["dBAR".data, fmt_int_pad 10 3 info.num_tracks,
         fmt_int_pad 16 8 info.disc_id_1, fmt_int_pad 16 8 info.disc_id_2,
         fmt_int_pad 16 8 info.cddb_disc_id ++ ".bin".data] := by
    unfold dBAR_filename
    rw [splitOnChar_append htagne, splitOnChar_append hA1,
      splitOnChar_append hA2, splitOnChar_append hA3,
      splitOnChar_of_forall_ne hA4]
  have htake : (fmt_int_pad 16 8 info.cddb_disc_id ++ ".bin".data).takeWhile
      (fun c => decide (c ≠ '.')) = fmt_int_pad 16 8 info.cddb_disc_id := by
    have hb : (".bin".data : List Char) = '.' :: "bin".data := rfl
    rw [hb]
    exact takeWhile_false_head
      (fun c hc => decide_eq_true
        (fmt_int_pad_safe (by norm_num) (by norm_num) h3 hc).2.2)
      (by simp) _
  simp only [parse_dBAR_url, hafter, hsplit, htake]
  rw [if_true]
  rw [parse_base_fmt_int_pad (by norm_num) (by norm_num) h4,
    parse_base_fmt_int_pad (by norm_num) (by norm_num) h1,
    parse_base_fmt_int_pad (by norm_num) (by norm_num) h2,
    parse_base_fmt_int_pad (by norm_num) (by norm_num) h3]

/-- **C6** witness: the theorem applied at the concrete identity of the
one-track example disc. -/
theorem c6_witness :
    parse_dBAR_url (create_accuraterip_db_url ⟨1701, 3403, 0x02001601, 1⟩)
      = some (1, 1701, 3403, 0x02001601) :=
  c6_url_round_trip ⟨1701, 3403, 0x02001601, 1⟩ (by norm_num) (by norm_num)
    (by norm_num) (by norm_num) (by norm_num) (by norm_num) (by norm_num)
